import Mathlib

/-
  Verification of the trade lifecycle engine of the paper-trading bot
  (bot.py / database.py), shallowly embedded over exact rational
  arithmetic.  Prices, sizes and balances are modelled as ℚ; the SQLite
  store (settings / open_trades / trade_history) is modelled as an
  explicit `BotState`; fallible operations take explicit failure flags
  or `Option` market prices.
-/

/-- Status of one take-profit ladder level ('pending' | 'hit' in bot.py). -/
inductive TPStatus
  | pending
  | hit
deriving DecidableEq

/-- One take-profit ladder level: `{"price": ..., "status": ...}` in bot.py. -/
structure TPLevel where
  price : ℚ
  status : TPStatus
deriving DecidableEq

/-- The PaperTrade dataclass of bot.py (lines 50-62). -/
structure PaperTrade where
  trade_id : String
  pair : String
  entry_price : ℚ
  sl_price : ℚ
  initial_size : ℚ
  remaining_size : ℚ
  leverage : ℚ
  is_long : Bool
  tp_levels : List TPLevel
  sl_moved_to_be : Bool
deriving DecidableEq

/-- A row of the trade_history table (database.py schema). -/
structure HistoryRecord where
  trade_id : String
  pair : String
  pnl : ℚ
  direction : String
  entry_price : ℚ
  exit_price : ℚ
  status : String
deriving DecidableEq

/-- The persistent store: the "balance" setting plus the open_trades and
trade_history tables of database.py. -/
structure BotState where
  balance : ℚ
  open_trades : List PaperTrade
  history : List HistoryRecord
deriving DecidableEq

/-- database.py `get_trade_by_id` (lines 200-208): SELECT by primary key. -/
def get_trade_by_id (st : BotState) (tid : String) : Option PaperTrade :=
  st.open_trades.find? (fun t => t.trade_id = tid)

/-- The per-row effect of database.py `update_trade` (lines 172-184): the SQL
UPDATE sets exactly sl_price, remaining_size, tp_levels and sl_moved_to_be on
rows whose trade_id matches. -/
def upd_apply (t u : PaperTrade) : PaperTrade :=
  if u.trade_id = t.trade_id then
    { u with sl_price := t.sl_price, remaining_size := t.remaining_size,
             tp_levels := t.tp_levels, sl_moved_to_be := t.sl_moved_to_be }
  else u

/-- database.py `update_trade` over the whole open_trades table. -/
def update_trade (st : BotState) (t : PaperTrade) : BotState :=
  { st with open_trades := st.open_trades.map (upd_apply t) }

/-- The history row written by database.py `close_trade` (lines 222-227). -/
def mk_history_record (t : PaperTrade) (status : String) (exit_price pnl : ℚ) :
    HistoryRecord :=
  ⟨t.trade_id, t.pair, pnl, if t.is_long then "LONG" else "SHORT",
   t.entry_price, exit_price, status⟩

/-- database.py `close_trade` (lines 211-236).  `fail = true` models an
exception raised between the history INSERT and the open_trades DELETE (or at
COMMIT): the transaction is rolled back and the store is unchanged.  When the
trade id is absent the function returns without touching the store. -/
def close_trade_run (fail : Bool) (st : BotState) (tid status : String)
    (exit_price pnl : ℚ) : BotState :=
  match get_trade_by_id st tid with
  | none => st
  | some t =>
    if fail then st
    else { st with
           history := st.history ++ [mk_history_record t status exit_price pnl],
           open_trades := st.open_trades.filter (fun u => ¬ u.trade_id = tid) }

/-- database.py `close_trade` on the non-failing path. -/
def close_trade (st : BotState) (tid status : String) (exit_price pnl : ℚ) :
    BotState :=
  close_trade_run false st tid status exit_price pnl

/-- database.py `add_trade` (lines 155-169): INSERT into open_trades. -/
def add_trade (st : BotState) (t : PaperTrade) : BotState :=
  { st with open_trades := st.open_trades ++ [t] }

/-- database.py `update_setting("balance", ...)`. -/
def update_balance (st : BotState) (b : ℚ) : BotState :=
  { st with balance := b }

/-- The PnL of closing `size` units at `exit_price` (bot.py lines 212-217 and
254-258): `price_diff = exit - entry`, negated for shorts, times the size. -/
def slice_pnl (t : PaperTrade) (exit_price size : ℚ) : ℚ :=
  (if t.is_long then exit_price - t.entry_price else t.entry_price - exit_price)
    * size

/-- bot.py `process_trade_closure` (lines 252-276): credit the PnL of the
remaining size to the balance, then ask the store to move the trade to
history. -/
def process_trade_closure (st : BotState) (t : PaperTrade) (status : String)
    (exit_price : ℚ) : BotState :=
  let pnl := slice_pnl t exit_price t.remaining_size
  let st1 := update_balance st (st.balance + pnl)
  close_trade st1 t.trade_id status exit_price pnl

/-- Python `str.startswith` over the characters of the strings. -/
def chars_start_with : List Char → List Char → Bool
  | _, [] => true
  | [], _ :: _ => false
  | c :: cs, d :: ds => c = d && chars_start_with cs ds

/-- `s.startswith(pre)` for the pair lookup in bot.py `close_trade_by_symbol`. -/
def str_starts_with (s pre : String) : Bool :=
  chars_start_with s.data pre.data

/-- The lookup of bot.py `close_trade_by_symbol` (lines 284-288): the first
open trade whose pair starts with `symbol + '/'`. -/
def find_trade_for_symbol (trades : List PaperTrade) (symbol : String) :
    Option PaperTrade :=
  trades.find? (fun t => str_starts_with t.pair (symbol ++ "/"))

/-- bot.py `close_trade_by_symbol` (lines 279-316).  `market_price = none`
models the ticker fetch failing after all retries (the trade then stays
open); otherwise the found trade is closed at the fetched last price. -/
def close_trade_by_symbol (st : BotState) (symbol : String)
    (market_price : Option ℚ) : BotState :=
  match find_trade_for_symbol st.open_trades symbol with
  | none => st
  | some t =>
    match market_price with
    | none => st
    | some p => process_trade_closure st t "MANUAL_CLOSE" p

/-- True when a level's status is 'pending' (bot.py line 152 check). -/
def is_pending_lvl (l : TPLevel) : Bool :=
  match l.status with
  | .pending => true
  | .hit => false

/-- The TP scan of bot.py `market_monitor` (lines 150-194): the `for` loop
skips non-pending levels and `break`s at the first pending one, so exactly
the lowest-index pending level (with its index) is examined per cycle. -/
def first_pending : List TPLevel → Option (ℕ × TPLevel)
  | [] => none
  | l :: ls =>
    if is_pending_lvl l then some (0, l)
    else (first_pending ls).map (fun p => (p.1 + 1, p.2))

/-- `level['status'] = 'hit'` on the i-th element of the ladder
(bot.py line 224). -/
def mark_hit : List TPLevel → ℕ → List TPLevel
  | [], _ => []
  | l :: ls, 0 => ⟨l.price, TPStatus.hit⟩ :: ls
  | l :: ls, n + 1 => l :: mark_hit ls n

/-- The float-residue guard `1e-8` of bot.py line 226. -/
def tp_eps : ℚ := 1 / 100000000

/-- bot.py `process_partial_tp_closure` (lines 205-249): close
`initial_size / 10` at the level's price, credit the slice PnL to the
balance, mark the level hit; if this was level index 9 or the remaining size
fell below `tp_eps`, move the trade to history, else persist the update.
Returns the new store and the updated in-memory trade object. -/
def process_tp_closure (st : BotState) (t : PaperTrade) (level_price : ℚ)
    (i : ℕ) : BotState × PaperTrade :=
  let size_to_close := t.initial_size / 10
  let pnl := slice_pnl t level_price size_to_close
  let st1 := update_balance st (st.balance + pnl)
  let t' := { t with remaining_size := t.remaining_size - size_to_close,
                     tp_levels := mark_hit t.tp_levels i }
  if i = 9 ∨ t'.remaining_size < tp_eps then
    (close_trade st1 t.trade_id ("TP" ++ toString (i + 1) ++ "_FULL_CLOSE")
       level_price pnl, t')
  else
    (update_trade st1 t', t')

/-- The candidate new stop price of the hybrid stop logic
(bot.py lines 160-174), computed on the in-memory trade after the partial
closure: break-even at entry when level index 1 is hit with the flag unset,
the price of level `i - 2` when a later level is hit, nothing otherwise. -/
def reloc_candidate (t : PaperTrade) (i : ℕ) : Option ℚ :=
  if i = 1 ∧ t.sl_moved_to_be = false then some t.entry_price
  else if 1 < i then (t.tp_levels[i - 2]?).map (fun l => l.price)
  else none

/-- The in-memory break-even flag after the hybrid stop logic
(bot.py line 166 sets it inside the `i == 1` branch). -/
def reloc_flag (t : PaperTrade) (i : ℕ) : Bool :=
  if i = 1 ∧ t.sl_moved_to_be = false then true else t.sl_moved_to_be

/-- bot.py lines 176-192: the relocation (DB write and notification) happens
only under `if new_sl_price and new_sl_price != trade.sl_price` — Python
truthiness, so a `None` or zero candidate never relocates.  The returned
Bool records whether the stop-moved notification was emitted. -/
def reloc_step (st : BotState) (t : PaperTrade) (i : ℕ) : BotState × Bool :=
  match reloc_candidate t i with
  | none => (st, false)
  | some p =>
    if p ≠ 0 ∧ p ≠ t.sl_price then
      (update_trade st { t with sl_price := p, sl_moved_to_be := reloc_flag t i },
       true)
    else (st, false)

/-- The stop-loss trigger of bot.py lines 144-145: price at or beyond the
stop against the trade's direction. -/
abbrev sl_crossed (t : PaperTrade) (p : ℚ) : Prop :=
  (t.is_long = true ∧ p ≤ t.sl_price) ∨ (t.is_long = false ∧ t.sl_price ≤ p)

/-- The favorable-reach test of bot.py lines 153-154 for a ladder level. -/
abbrev tp_reached (t : PaperTrade) (p lvl : ℚ) : Prop :=
  (t.is_long = true ∧ lvl ≤ p) ∨ (t.is_long = false ∧ p ≤ lvl)

/-- One trade's evaluation in one monitor cycle (bot.py lines 136-194):
stop-loss check first (full closure at the stop price, nothing else runs),
otherwise examine only the first pending ladder level, and if reached run the
partial closure followed by the hybrid stop relocation.  The Bool is the
stop-relocation notification flag of `reloc_step`. -/
def monitor_trade_step (st : BotState) (t : PaperTrade) (p : ℚ) :
    BotState × Bool :=
  if sl_crossed t p then
    (process_trade_closure st t "SL_HIT" t.sl_price, false)
  else
    match first_pending t.tp_levels with
    | none => (st, false)
    | some (i, lvl) =>
      if tp_reached t p lvl.price then
        let r := process_tp_closure st t lvl.price i
        reloc_step r.1 r.2 i
      else (st, false)

/-- The ladder construction of bot.py lines 518-520 / 536-538:
`entry ± step * i` for `i in range(1, 11)`, all pending. -/
def mk_tp_levels (entry step : ℚ) (is_long : Bool) : List TPLevel :=
  (List.range 10).map (fun i =>
    ⟨if is_long then entry + step * ((i : ℚ) + 1)
      else entry - step * ((i : ℚ) + 1), TPStatus.pending⟩)

/-- bot.py `execute_trade` (lines 435-581), price logic only.  `target` is
the optional extracted target field.  Rejections (geometry, balance, zero
stop distance) return `none`.  When no target was extracted at all the
Python code raises `NameError` at line 515 (`tp` was never assigned), which
the catch-all handler turns into an error message: no trade is opened, so
that path is also `none`. -/
def execute_trade (tid pair : String) (entry sl : ℚ) (target : Option ℚ)
    (risk balance leverage : ℚ) : Option PaperTrade :=
  let is_long : Bool := decide (sl < entry)
  if (is_long = true ∧ entry ≤ sl) ∨ (is_long = false ∧ sl ≤ entry) then none
  else
    match target with
    | none => none
    | some tp0 =>
      let tp : Option ℚ :=
        if (is_long = true ∧ tp0 ≤ entry) ∨ (is_long = false ∧ entry ≤ tp0)
        then none else some tp0
      if entry = sl then none
      else if balance < risk then none
      else
        let dist := |entry - sl|
        if dist = 0 then none
        else
          let size := risk / dist
          let levels :=
            match tp with
            | some tpv =>
              if tpv ≠ 0 ∧ ((is_long = true ∧ entry < tpv)
                  ∨ (is_long = false ∧ tpv < entry)) then
                mk_tp_levels entry (|tpv - entry| / 10) is_long
              else mk_tp_levels entry (|entry - sl| * 10 / 10) is_long
            | none => mk_tp_levels entry (|entry - sl| * 10 / 10) is_long
          some { trade_id := tid, pair := pair, entry_price := entry,
                 sl_price := sl, initial_size := size, remaining_size := size,
                 leverage := leverage, is_long := is_long,
                 tp_levels := levels, sl_moved_to_be := false }

/-- Opening the signal's trade (bot.py lines 692 / 541-548): run
`execute_trade` against the current balance and insert on success. -/
def open_signal_trade (st : BotState) (tid trading_pair : String)
    (entry sl : ℚ) (target : Option ℚ) (risk leverage : ℚ) : BotState :=
  match execute_trade tid trading_pair entry sl target risk st.balance leverage with
  | none => st
  | some t => add_trade st t

/-- The reversal logic of bot.py `message_handler` (lines 607-660): the
trading pair is `pair_tag ++ "USDT"`; if a trade for that pair is open and
the new signal's implied direction (`stoploss < entry`) matches it, the
signal is rejected; if it differs, `close_trade_by_symbol` is called with
the bare tag and then the new trade is opened. -/
def message_handler_signal (st : BotState) (pair_tag tid : String)
    (entry sl : ℚ) (target : Option ℚ) (risk leverage : ℚ)
    (market_price : Option ℚ) : BotState :=
  let trading_pair := pair_tag ++ "USDT"
  let new_is_long : Bool := decide (sl < entry)
  match st.open_trades.find? (fun t => t.pair = trading_pair) with
  | some t =>
    if t.is_long ≠ new_is_long then
      open_signal_trade (close_trade_by_symbol st pair_tag market_price)
        tid trading_pair entry sl target risk leverage
    else st
  | none => open_signal_trade st tid trading_pair entry sl target risk leverage

/-- A PendingConfirmation record (bot.py lines 708-713). -/
structure PendingRequest where
  trading_pair : String
  photo_file_id : String
  confirmation_message_id : ℕ
deriving DecidableEq

/-- Dictionary lookup in `app_state["pending_confirmations"]`. -/
def lookup_req : List (String × PendingRequest) → String → Option PendingRequest
  | [], _ => none
  | (k, v) :: rest, rid => if k = rid then some v else lookup_req rest rid

/-- Outcome of one button press: the remaining pending-confirmation map,
whether `execute_trade` was invoked, and whether the "expired or already
processed" reply was shown. -/
structure ButtonOutcome where
  pending : List (String × PendingRequest)
  opened_trade : Bool
  expired_reply : Bool
deriving DecidableEq

/-- bot.py `button_handler` (lines 716-748): an unknown request id only gets
the expired/already-processed reply; a known id triggers `execute_trade`
exactly when the action is `confirm_trade`, and the `finally` block deletes
the record for every action. -/
def button_handler (pending : List (String × PendingRequest))
    (action rid : String) : ButtonOutcome :=
  match lookup_req pending rid with
  | none => ⟨pending, false, true⟩
  | some _ =>
    ⟨pending.filter (fun e => ¬ e.1 = rid),
     action = "confirm_trade", false⟩

/-- The ladder-order shape: a (possibly empty) block of hit levels followed
only by pending levels. -/
def all_pending_b (ls : List TPLevel) : Bool :=
  ls.all is_pending_lvl

/-- Hit levels first, then only pending ones. -/
def hit_front : List TPLevel → Bool
  | [] => true
  | l :: ls => if is_pending_lvl l then all_pending_b ls else hit_front ls

/-- True when a level's status is 'hit'. -/
def is_hit_lvl (l : TPLevel) : Bool :=
  match l.status with
  | .pending => false
  | .hit => true

/-- Number of hit levels in a ladder. -/
def hit_count (ls : List TPLevel) : ℕ :=
  ls.countP is_hit_lvl

theorem get_trade_by_id_update_balance (st : BotState) (b : ℚ) (tid : String) :
    get_trade_by_id (update_balance st b) tid = get_trade_by_id st tid := rfl

theorem upd_apply_trade_id (t v : PaperTrade) :
    (upd_apply t v).trade_id = v.trade_id := by
  unfold upd_apply; split <;> rfl

theorem upd_apply_initial_size (t v : PaperTrade) :
    (upd_apply t v).initial_size = v.initial_size := by
  unfold upd_apply; split <;> rfl

theorem upd_apply_of_eq {t v : PaperTrade} (h : v.trade_id = t.trade_id) :
    upd_apply t v =
      { v with sl_price := t.sl_price, remaining_size := t.remaining_size,
               tp_levels := t.tp_levels, sl_moved_to_be := t.sl_moved_to_be } := by
  unfold upd_apply; exact if_pos h

theorem upd_apply_of_ne {t v : PaperTrade} (h : ¬ v.trade_id = t.trade_id) :
    upd_apply t v = v := by
  unfold upd_apply; exact if_neg h

theorem mem_update_trade {u : PaperTrade} {st : BotState} {t : PaperTrade} :
    u ∈ (update_trade st t).open_trades ↔
      ∃ v ∈ st.open_trades, u = upd_apply t v := by
  simp only [update_trade, List.mem_map]
  constructor
  · rintro ⟨v, hv, rfl⟩; exact ⟨v, hv, rfl⟩
  · rintro ⟨v, hv, rfl⟩; exact ⟨v, hv, rfl⟩

theorem mem_close_trade {u : PaperTrade} {st : BotState} {tid status : String}
    {e pnl : ℚ} :
    u ∈ (close_trade st tid status e pnl).open_trades → u ∈ st.open_trades := by
  unfold close_trade close_trade_run
  cases h : get_trade_by_id st tid with
  | none => intro hu; exact hu
  | some t =>
    intro hu
    simp only [Bool.false_eq_true, if_false] at hu
    exact (List.mem_filter.mp hu).1

theorem mem_process_trade_closure {u : PaperTrade} {st : BotState}
    {t : PaperTrade} {status : String} {e : ℚ} :
    u ∈ (process_trade_closure st t status e).open_trades →
      u ∈ st.open_trades := by
  simp only [process_trade_closure]
  intro h
  have h2 : u ∈ (update_balance st
      (st.balance + slice_pnl t e t.remaining_size)).open_trades :=
    mem_close_trade h
  exact h2

theorem close_trade_ne_mem {u : PaperTrade} {st : BotState}
    {tid status : String} {e pnl : ℚ} (ht : get_trade_by_id st tid = some t0) :
    u ∈ (close_trade st tid status e pnl).open_trades → ¬ u.trade_id = tid := by
  unfold close_trade close_trade_run
  rw [ht]
  simp only [Bool.false_eq_true, if_false]
  intro hu
  have := (List.mem_filter.mp hu).2
  simpa using this

theorem first_pending_get {ls : List TPLevel} {i : ℕ} {l : TPLevel} :
    first_pending ls = some (i, l) →
      ls[i]? = some l ∧ is_pending_lvl l = true := by
  induction ls generalizing i with
  | nil => intro h; simp [first_pending] at h
  | cons x xs ih =>
    intro h
    unfold first_pending at h
    by_cases hx : is_pending_lvl x = true
    · rw [if_pos hx] at h
      injection h with h
      injection h with h1 h2
      subst h1; subst h2
      exact ⟨by simp, hx⟩
    · rw [if_neg hx] at h
      cases hfp : first_pending xs with
      | none => rw [hfp] at h; exact Option.noConfusion h
      | some p =>
        rw [hfp] at h
        simp only [Option.map_some'] at h
        injection h with h
        obtain ⟨i', l'⟩ := p
        injection h with h1 h2
        subst h2
        obtain ⟨hget, hpend⟩ := ih hfp
        refine ⟨?_, hpend⟩
        subst h1
        simpa using hget

theorem mark_hit_get_self {ls : List TPLevel} {i : ℕ} {l : TPLevel}
    (h : ls[i]? = some l) :
    (mark_hit ls i)[i]? = some ⟨l.price, TPStatus.hit⟩ := by
  induction ls generalizing i with
  | nil => simp at h
  | cons x xs ih =>
    cases i with
    | zero =>
      simp only [List.getElem?_cons_zero, Option.some.injEq] at h
      subst h
      simp [mark_hit]
    | succ n =>
      simp only [List.getElem?_cons_succ] at h
      simpa [mark_hit] using ih h

theorem mark_hit_get_ne {ls : List TPLevel} {i j : ℕ} (h : j ≠ i) :
    (mark_hit ls i)[j]? = ls[j]? := by
  induction ls generalizing i j with
  | nil => rfl
  | cons x xs ih =>
    cases i with
    | zero =>
      cases j with
      | zero => exact absurd rfl h
      | succ m => simp [mark_hit]
    | succ n =>
      cases j with
      | zero => simp [mark_hit]
      | succ m =>
        simp only [mark_hit, List.getElem?_cons_succ]
        exact ih (fun hc => h (by rw [hc]))

theorem hit_front_of_all_pending {ls : List TPLevel}
    (h : all_pending_b ls = true) : hit_front ls = true := by
  cases ls with
  | nil => rfl
  | cons x xs =>
    have hall := List.all_eq_true.mp h
    have hx : is_pending_lvl x = true := hall x (by simp)
    have hxs : all_pending_b xs = true := by
      apply List.all_eq_true.mpr
      intro a ha
      exact hall a (by simp [ha])
    simp [hit_front, hx, hxs]

theorem hit_front_mark {ls : List TPLevel} {i : ℕ} {l : TPLevel}
    (hf : hit_front ls = true) (hfp : first_pending ls = some (i, l)) :
    hit_front (mark_hit ls i) = true := by
  induction ls generalizing i with
  | nil => simp [first_pending] at hfp
  | cons x xs ih =>
    unfold first_pending at hfp
    by_cases hx : is_pending_lvl x = true
    · rw [if_pos hx] at hfp
      injection hfp with hfp
      injection hfp with h1 _
      subst h1
      have hxs : all_pending_b xs = true := by
        unfold hit_front at hf
        rwa [if_pos hx] at hf
      show hit_front (⟨x.price, TPStatus.hit⟩ :: xs) = true
      unfold hit_front
      simp only [is_pending_lvl, if_false]
      exact hit_front_of_all_pending hxs
    · rw [if_neg hx] at hfp
      cases hfp' : first_pending xs with
      | none => rw [hfp'] at hfp; exact Option.noConfusion hfp
      | some p =>
        rw [hfp'] at hfp
        simp only [Option.map_some'] at hfp
        injection hfp with hfp
        obtain ⟨i', l'⟩ := p
        injection hfp with h1 h2
        subst h2
        have hfxs : hit_front xs = true := by
          unfold hit_front at hf
          rwa [if_neg hx] at hf
        subst h1
        show hit_front (x :: mark_hit xs i') = true
        unfold hit_front
        rw [if_neg hx]
        exact ih hfxs hfp'

theorem is_hit_not_pending (l : TPLevel) :
    is_hit_lvl l = !is_pending_lvl l := by
  cases h : l.status <;> simp [is_hit_lvl, is_pending_lvl, h]

theorem hit_count_mark {ls : List TPLevel} {i : ℕ} {l : TPLevel}
    (h : ls[i]? = some l) (hp : is_pending_lvl l = true) :
    hit_count (mark_hit ls i) = hit_count ls + 1 := by
  induction ls generalizing i with
  | nil => simp at h
  | cons x xs ih =>
    cases i with
    | zero =>
      simp only [List.getElem?_cons_zero, Option.some.injEq] at h
      subst h
      have hx : is_hit_lvl x = false := by
        rw [is_hit_not_pending, hp]; rfl
      simp only [is_hit_lvl] at hx
      simp [mark_hit, hit_count, List.countP_cons, hx, is_hit_lvl,
        Nat.add_comm]
    | succ n =>
      simp only [List.getElem?_cons_succ] at h
      have := ih h
      simp only [mark_hit, hit_count, List.countP_cons] at *
      omega

theorem mk_tp_levels_status {e s : ℚ} {b : Bool} :
    ∀ l ∈ mk_tp_levels e s b, l.status = TPStatus.pending := by
  intro l hl
  simp only [mk_tp_levels, List.mem_map] at hl
  obtain ⟨i, _, rfl⟩ := hl
  rfl

theorem all_pending_mk {e s : ℚ} {b : Bool} :
    all_pending_b (mk_tp_levels e s b) = true := by
  apply List.all_eq_true.mpr
  intro l hl
  have := mk_tp_levels_status l hl
  simp [is_pending_lvl, this]

theorem hit_front_mk {e s : ℚ} {b : Bool} :
    hit_front (mk_tp_levels e s b) = true :=
  hit_front_of_all_pending all_pending_mk

theorem hit_count_mk {e s : ℚ} {b : Bool} :
    hit_count (mk_tp_levels e s b) = 0 := by
  apply List.countP_eq_zero.mpr
  intro l hl
  have := mk_tp_levels_status l hl
  simp [is_hit_lvl, this]

theorem lookup_req_filter (l : List (String × PendingRequest)) (rid : String) :
    lookup_req (l.filter (fun e => ¬ e.1 = rid)) rid = none := by
  induction l with
  | nil => rfl
  | cons x xs ih =>
    simp only [decide_not] at ih
    by_cases hx : x.1 = rid
    · simp [List.filter, hx, ih]
    · simp [List.filter, hx, lookup_req, ih]

theorem get_trade_by_id_filter (ls : List PaperTrade) (b : ℚ)
    (hs : List HistoryRecord) (tid : String) :
    get_trade_by_id ⟨b, ls.filter (fun u => ¬ u.trade_id = tid), hs⟩ tid
      = none := by
  unfold get_trade_by_id
  induction ls with
  | nil => rfl
  | cons x xs ih =>
    simp only [decide_not] at ih
    by_cases hx : x.trade_id = tid
    · simp [List.filter, hx, ih]
    · simp [List.filter, List.find?, hx, ih]

theorem button_handler_of_none {pending : List (String × PendingRequest)}
    {rid : String} (a : String) (h : lookup_req pending rid = none) :
    button_handler pending a rid = ⟨pending, false, true⟩ := by
  unfold button_handler
  rw [h]

/-- C9: every PendingConfirmation record is consumed at most once: both the
confirm action and the ignore action delete the record, so a second press
with the same request id finds no record, opens no trade, and only gets the
expired/already-processed reply. -/
theorem c9_confirmation_consumed_once
    (pending : List (String × PendingRequest)) (action action2 rid : String) :
    lookup_req (button_handler pending action rid).pending rid = none
    ∧ button_handler (button_handler pending action rid).pending action2 rid
        = ⟨(button_handler pending action rid).pending, false, true⟩ := by
  have h1 : lookup_req (button_handler pending action rid).pending rid
      = none := by
    unfold button_handler
    cases h : lookup_req pending rid with
    | none => exact h
    | some r => exact lookup_req_filter pending rid
  exact ⟨h1, button_handler_of_none action2 h1⟩

/-- C3: closing a trade that is present in the open set is atomic: on the
non-failing path the history record is appended and the trade leaves the
open set; a failure between the insert and the delete rolls the whole
transaction back, leaving the store exactly as it was. -/
theorem c3_close_trade_atomic (st : BotState) (tid status : String)
    (ep pnl : ℚ) (t : PaperTrade)
    (h : get_trade_by_id st tid = some t) :
    close_trade_run true st tid status ep pnl = st
    ∧ (close_trade_run false st tid status ep pnl).history
        = st.history ++ [mk_history_record t status ep pnl]
    ∧ (close_trade_run false st tid status ep pnl).open_trades
        = st.open_trades.filter (fun u => ¬ u.trade_id = tid)
    ∧ get_trade_by_id (close_trade_run false st tid status ep pnl) tid
        = none := by
  unfold close_trade_run
  rw [h]
  refine ⟨by simp, rfl, rfl, ?_⟩
  simp only [Bool.false_eq_true, if_false]
  exact get_trade_by_id_filter st.open_trades st.balance
    (st.history ++ [mk_history_record t status ep pnl]) tid

def c3w_trade : PaperTrade :=
  ⟨"tc3", "ABCUSDT", 100, 90, 5, 5, 20, true, [], false⟩

def c3w_state : BotState := ⟨1000, [c3w_trade], []⟩

theorem c3_close_trade_atomic_witness :
    close_trade_run true c3w_state "tc3" "SL_HIT" 90 (-50) = c3w_state
    ∧ get_trade_by_id (close_trade_run false c3w_state "tc3" "SL_HIT" 90 (-50))
        "tc3" = none :=
  ⟨(c3_close_trade_atomic c3w_state "tc3" "SL_HIT" 90 (-50) c3w_trade rfl).1,
   (c3_close_trade_atomic c3w_state "tc3" "SL_HIT" 90 (-50) c3w_trade
      rfl).2.2.2⟩

/-- C2 (amended): running the closure step on a trade that is no longer in
the open set appends no history record and leaves the open-trade set
unchanged, but it still credits the trade's computed PnL to the balance
(the balance write happens before the existence check inside
database.close_trade). -/
theorem c2_closure_of_absent_trade (st : BotState) (t : PaperTrade)
    (status : String) (ep : ℚ)
    (h : get_trade_by_id st t.trade_id = none) :
    (process_trade_closure st t status ep).open_trades = st.open_trades
    ∧ (process_trade_closure st t status ep).history = st.history
    ∧ (process_trade_closure st t status ep).balance
        = st.balance + slice_pnl t ep t.remaining_size := by
  simp only [process_trade_closure, close_trade, close_trade_run,
    get_trade_by_id_update_balance]
  rw [h]
  exact ⟨rfl, rfl, rfl⟩

def c2_trade : PaperTrade :=
  ⟨"gone", "AAAUSDT", 100, 90, 5, 2, 20, true, [], false⟩

def c2_state : BotState := ⟨1000, [], []⟩

/-- C2 counterexample: evaluating the closure step on a trade absent from
the open set is not free of effects — the balance changes by the PnL. -/
theorem c2_closure_absent_counterexample :
    get_trade_by_id c2_state c2_trade.trade_id = none
    ∧ (process_trade_closure c2_state c2_trade "MANUAL_CLOSE" 110).balance
        ≠ c2_state.balance := by
  refine ⟨rfl, ?_⟩
  norm_num [process_trade_closure, close_trade, close_trade_run, slice_pnl,
    update_balance, get_trade_by_id, c2_state, c2_trade]

theorem c2_closure_of_absent_trade_witness :
    (process_trade_closure c2_state c2_trade "SL_HIT" 110).open_trades
      = c2_state.open_trades
    ∧ (process_trade_closure c2_state c2_trade "SL_HIT" 110).history
      = c2_state.history :=
  ⟨(c2_closure_of_absent_trade c2_state c2_trade "SL_HIT" 110 rfl).1,
   (c2_closure_of_absent_trade c2_state c2_trade "SL_HIT" 110 rfl).2.1⟩

/-- C4: for a monitored trade whose price has crossed the stop against the
trade's direction, the cycle performs exactly the full closure at the stop
price with reason SL_HIT: the history gains that record, the trade leaves
the open set, the remaining PnL is settled, no relocation notification is
emitted and no other open trade is touched — no take-profit or
stop-relocation step runs for this trade in this cycle. -/
theorem c4_stop_loss_first (st : BotState) (t u : PaperTrade) (p : ℚ)
    (hc : sl_crossed t p)
    (hid : get_trade_by_id st t.trade_id = some u) :
    monitor_trade_step st t p
      = (process_trade_closure st t "SL_HIT" t.sl_price, false)
    ∧ (monitor_trade_step st t p).1.history
        = st.history ++ [mk_history_record u "SL_HIT" t.sl_price
            (slice_pnl t t.sl_price t.remaining_size)]
    ∧ (monitor_trade_step st t p).1.open_trades
        = st.open_trades.filter (fun v => ¬ v.trade_id = t.trade_id)
    ∧ (∀ v ∈ (monitor_trade_step st t p).1.open_trades, v ∈ st.open_trades)
    ∧ (monitor_trade_step st t p).1.balance
        = st.balance + slice_pnl t t.sl_price t.remaining_size := by
  have hstep : monitor_trade_step st t p
      = (process_trade_closure st t "SL_HIT" t.sl_price, false) := by
    unfold monitor_trade_step
    rw [if_pos hc]
  have hclosure :
      process_trade_closure st t "SL_HIT" t.sl_price
        = { balance := st.balance + slice_pnl t t.sl_price t.remaining_size,
            open_trades :=
              st.open_trades.filter (fun v => ¬ v.trade_id = t.trade_id),
            history := st.history ++ [mk_history_record u "SL_HIT" t.sl_price
              (slice_pnl t t.sl_price t.remaining_size)] } := by
    simp only [process_trade_closure, close_trade, close_trade_run,
      get_trade_by_id_update_balance]
    rw [hid]
    simp [update_balance]
  refine ⟨hstep, ?_, ?_, ?_, ?_⟩ <;> rw [hstep, hclosure]
  intro v hv
  exact (List.mem_filter.mp hv).1

def c4w_trade : PaperTrade :=
  ⟨"tc4", "ABCUSDT", 100, 90, 5, 5, 20, true,
   [⟨110, TPStatus.pending⟩, ⟨120, TPStatus.pending⟩], false⟩

def c4w_state : BotState := ⟨1000, [c4w_trade], []⟩

theorem c4_stop_loss_first_witness :
    monitor_trade_step c4w_state c4w_trade 80
      = (process_trade_closure c4w_state c4w_trade "SL_HIT"
          c4w_trade.sl_price, false)
    ∧ (monitor_trade_step c4w_state c4w_trade 80).1.open_trades
        = c4w_state.open_trades.filter
            (fun v => ¬ v.trade_id = c4w_trade.trade_id) :=
  ⟨(c4_stop_loss_first c4w_state c4w_trade c4w_trade 80
      (Or.inl ⟨rfl, by norm_num [c4w_trade]⟩) rfl).1,
   (c4_stop_loss_first c4w_state c4w_trade c4w_trade 80
      (Or.inl ⟨rfl, by norm_num [c4w_trade]⟩) rfl).2.2.1⟩

/-- C7: opening with entry=100, stop=90, target=200 and risk=50 (with
sufficient balance) yields size 50/|100-90| = 5, direction Long, and a
ladder of exactly 10 pending levels at 110, 120, ..., 200. -/
theorem c7_open_concrete_example (tid pair : String) (balance leverage : ℚ)
    (h : (50:ℚ) ≤ balance) :
    execute_trade tid pair 100 90 (some 200) 50 balance leverage
      = some { trade_id := tid, pair := pair, entry_price := 100,
               sl_price := 90, initial_size := 5, remaining_size := 5,
               leverage := leverage, is_long := true,
               tp_levels := [⟨110, .pending⟩, ⟨120, .pending⟩,
                 ⟨130, .pending⟩, ⟨140, .pending⟩, ⟨150, .pending⟩,
                 ⟨160, .pending⟩, ⟨170, .pending⟩, ⟨180, .pending⟩,
                 ⟨190, .pending⟩, ⟨200, .pending⟩],
               sl_moved_to_be := false } := by
  have hb : ¬ ((balance : ℚ) < 50) := not_lt.mpr h
  unfold execute_trade
  norm_num [hb, mk_tp_levels, List.range_succ]

theorem c7_open_concrete_example_witness :
    execute_trade "t7" "XYZUSDT" 100 90 (some 200) 50 1000 20
      = some { trade_id := "t7", pair := "XYZUSDT", entry_price := 100,
               sl_price := 90, initial_size := 5, remaining_size := 5,
               leverage := 20, is_long := true,
               tp_levels := [⟨110, .pending⟩, ⟨120, .pending⟩,
                 ⟨130, .pending⟩, ⟨140, .pending⟩, ⟨150, .pending⟩,
                 ⟨160, .pending⟩, ⟨170, .pending⟩, ⟨180, .pending⟩,
                 ⟨190, .pending⟩, ⟨200, .pending⟩],
               sl_moved_to_be := false } :=
  c7_open_concrete_example "t7" "XYZUSDT" 1000 20 (by norm_num)

def c1_trade : PaperTrade :=
  ⟨"t1", "XRPUSDT", 100, 90, 5, 5, 20, true,
   [⟨110, .pending⟩, ⟨120, .pending⟩, ⟨130, .pending⟩, ⟨140, .pending⟩,
    ⟨150, .pending⟩, ⟨160, .pending⟩, ⟨170, .pending⟩, ⟨180, .pending⟩,
    ⟨190, .pending⟩, ⟨200, .pending⟩], false⟩

def c1_state : BotState := ⟨1000, [c1_trade], []⟩

/-- C1: trades are stored with pair `tag ++ "USDT"` (no slash), while
`close_trade_by_symbol` looks for a pair starting with `tag ++ "/"`.  So on
an opposite-direction signal the handler's own duplicate lookup finds the
open long, but the close lookup finds nothing: the long is never closed
(history stays empty) and the new short is opened anyway, leaving both
positions open.  The same-direction half of the claim does hold: such a
signal is rejected with no state change. -/
theorem c1_reversal_close_never_finds_trade :
    c1_state.open_trades.find? (fun t => t.pair = ("XRP" ++ "USDT" : String))
      = some c1_trade
    ∧ c1_trade.is_long = true
    ∧ (decide ((210:ℚ) < 200)) = false
    ∧ find_trade_for_symbol c1_state.open_trades "XRP" = none
    ∧ (message_handler_signal c1_state "XRP" "t2" 200 210 (some 150) 50 20
        (some 150)).history = []
    ∧ (message_handler_signal c1_state "XRP" "t2" 200 210 (some 150) 50 20
        (some 150)).open_trades.map (fun t => t.trade_id) = ["t1", "t2"]
    ∧ message_handler_signal c1_state "XRP" "t3" 100 90 (some 200) 50 20
        (some 150) = c1_state := by
  refine ⟨by decide, rfl, by decide, by decide, ?_, ?_, by decide⟩ <;>
  · have happ : ("XRP" ++ "USDT" : String) = "XRPUSDT" := by decide
    have hclose : close_trade_by_symbol c1_state "XRP" (some 150)
        = c1_state := by decide
    have hbal : c1_state.balance = 1000 := rfl
    have hopen : c1_state.open_trades = [c1_trade] := rfl
    have hhist : c1_state.history = [] := rfl
    have hlong : c1_trade.is_long = true := rfl
    have hid1 : c1_trade.trade_id = "t1" := rfl
    have hpair : c1_trade.pair = "XRPUSDT" := rfl
    norm_num [message_handler_signal, open_signal_trade, execute_trade,
      add_trade, happ, hclose, hbal, hhist, hlong, hid1, hopen, hpair,
      mk_tp_levels, List.range_succ]

theorem monitor_step_tp {st : BotState} {t : PaperTrade} {p : ℚ} {i : ℕ}
    {lvl : TPLevel} (hsl : ¬ sl_crossed t p)
    (hfp : first_pending t.tp_levels = some (i, lvl))
    (hr : tp_reached t p lvl.price) :
    monitor_trade_step st t p
      = reloc_step (process_tp_closure st t lvl.price i).1
          (process_tp_closure st t lvl.price i).2 i := by
  unfold monitor_trade_step
  rw [if_neg hsl, hfp]
  simp only [if_pos hr]

theorem monitor_step_tp_miss {st : BotState} {t : PaperTrade} {p : ℚ} {i : ℕ}
    {lvl : TPLevel} (hsl : ¬ sl_crossed t p)
    (hfp : first_pending t.tp_levels = some (i, lvl))
    (hr : ¬ tp_reached t p lvl.price) :
    monitor_trade_step st t p = (st, false) := by
  unfold monitor_trade_step
  rw [if_neg hsl, hfp]
  simp only [if_neg hr]

theorem process_tp_closure_snd (st : BotState) (t : PaperTrade) (lp : ℚ)
    (i : ℕ) :
    (process_tp_closure st t lp i).2
      = { t with remaining_size := t.remaining_size - t.initial_size / 10,
                 tp_levels := mark_hit t.tp_levels i } := by
  simp only [process_tp_closure]
  split <;> rfl

theorem process_tp_closure_fst_full {st : BotState} {t : PaperTrade} {lp : ℚ}
    {i : ℕ}
    (h : i = 9 ∨ t.remaining_size - t.initial_size / 10 < tp_eps) :
    (process_tp_closure st t lp i).1
      = close_trade
          (update_balance st (st.balance + slice_pnl t lp (t.initial_size / 10)))
          t.trade_id ("TP" ++ toString (i + 1) ++ "_FULL_CLOSE") lp
          (slice_pnl t lp (t.initial_size / 10)) := by
  simp only [process_tp_closure]
  rw [if_pos h]

theorem process_tp_closure_fst_update {st : BotState} {t : PaperTrade}
    {lp : ℚ} {i : ℕ}
    (h : ¬ (i = 9 ∨ t.remaining_size - t.initial_size / 10 < tp_eps)) :
    (process_tp_closure st t lp i).1
      = update_trade
          (update_balance st (st.balance + slice_pnl t lp (t.initial_size / 10)))
          { t with remaining_size := t.remaining_size - t.initial_size / 10,
                   tp_levels := mark_hit t.tp_levels i } := by
  simp only [process_tp_closure]
  rw [if_neg h]

theorem balance_update_trade (st : BotState) (t : PaperTrade) :
    (update_trade st t).balance = st.balance := rfl

theorem balance_close_trade (st : BotState) (tid status : String)
    (e pnl : ℚ) : (close_trade st tid status e pnl).balance = st.balance := by
  unfold close_trade close_trade_run
  cases h : get_trade_by_id st tid with
  | none => rfl
  | some t => simp

theorem balance_reloc_step (st : BotState) (t : PaperTrade) (i : ℕ) :
    (reloc_step st t i).1.balance = st.balance := by
  simp only [reloc_step]
  cases h : reloc_candidate t i with
  | none => rfl
  | some q =>
    split <;> try rfl
    split <;> rfl

theorem balance_process_tp_closure (st : BotState) (t : PaperTrade)
    (lp : ℚ) (i : ℕ) :
    (process_tp_closure st t lp i).1.balance
      = st.balance + slice_pnl t lp (t.initial_size / 10) := by
  by_cases h : i = 9 ∨ t.remaining_size - t.initial_size / 10 < tp_eps
  · rw [process_tp_closure_fst_full h, balance_close_trade]; rfl
  · rw [process_tp_closure_fst_update h, balance_update_trade]; rfl

theorem mem_close_trade_ne {u : PaperTrade} {st : BotState}
    {tid status : String} {e pnl : ℚ} :
    u ∈ (close_trade st tid status e pnl).open_trades →
      u ∈ st.open_trades ∧ ¬ u.trade_id = tid := by
  unfold close_trade close_trade_run
  cases h : get_trade_by_id st tid with
  | none =>
    intro hu
    refine ⟨hu, ?_⟩
    have := List.find?_eq_none.mp h u hu
    simpa using this
  | some t =>
    intro hu
    simp only [Bool.false_eq_true, if_false] at hu
    have h2 := List.mem_filter.mp hu
    refine ⟨h2.1, ?_⟩
    simpa using h2.2

theorem upd_apply_cases (t v : PaperTrade) :
    (¬ v.trade_id = t.trade_id ∧ upd_apply t v = v)
    ∨ (v.trade_id = t.trade_id
       ∧ (upd_apply t v).trade_id = v.trade_id
       ∧ (upd_apply t v).pair = v.pair
       ∧ (upd_apply t v).entry_price = v.entry_price
       ∧ (upd_apply t v).initial_size = v.initial_size
       ∧ (upd_apply t v).leverage = v.leverage
       ∧ (upd_apply t v).is_long = v.is_long
       ∧ (upd_apply t v).sl_price = t.sl_price
       ∧ (upd_apply t v).remaining_size = t.remaining_size
       ∧ (upd_apply t v).tp_levels = t.tp_levels
       ∧ (upd_apply t v).sl_moved_to_be = t.sl_moved_to_be) := by
  by_cases h : v.trade_id = t.trade_id
  · right
    rw [upd_apply_of_eq h]
    exact ⟨h, rfl, rfl, rfl, rfl, rfl, rfl, rfl, rfl, rfl, rfl⟩
  · left
    exact ⟨h, upd_apply_of_ne h⟩

theorem mem_update_trade_fields {u : PaperTrade} {st : BotState}
    {T : PaperTrade} (hu : u ∈ (update_trade st T).open_trades) :
    (u ∈ st.open_trades ∧ ¬ u.trade_id = T.trade_id)
    ∨ (∃ v ∈ st.open_trades, v.trade_id = T.trade_id
        ∧ u.trade_id = v.trade_id ∧ u.pair = v.pair
        ∧ u.entry_price = v.entry_price ∧ u.initial_size = v.initial_size
        ∧ u.leverage = v.leverage ∧ u.is_long = v.is_long
        ∧ u.sl_price = T.sl_price ∧ u.remaining_size = T.remaining_size
        ∧ u.tp_levels = T.tp_levels
        ∧ u.sl_moved_to_be = T.sl_moved_to_be) := by
  obtain ⟨v, hv, rfl⟩ := mem_update_trade.mp hu
  rcases upd_apply_cases T v with ⟨hne, heq⟩ | hf
  · rw [heq]; exact Or.inl ⟨hv, hne⟩
  · exact Or.inr ⟨v, hv, hf.1, hf.2.1, hf.2.2.1, hf.2.2.2.1, hf.2.2.2.2.1,
      hf.2.2.2.2.2.1, hf.2.2.2.2.2.2.1, hf.2.2.2.2.2.2.2.1,
      hf.2.2.2.2.2.2.2.2.1, hf.2.2.2.2.2.2.2.2.2.1, hf.2.2.2.2.2.2.2.2.2.2⟩

theorem reloc_step_mem {st : BotState} {t : PaperTrade} {i : ℕ}
    {u : PaperTrade} (hu : u ∈ (reloc_step st t i).1.open_trades) :
    u ∈ st.open_trades
    ∨ ∃ v ∈ st.open_trades, v.trade_id = t.trade_id
        ∧ u.trade_id = v.trade_id ∧ u.pair = v.pair
        ∧ u.entry_price = v.entry_price ∧ u.initial_size = v.initial_size
        ∧ u.leverage = v.leverage ∧ u.is_long = v.is_long
        ∧ u.remaining_size = t.remaining_size ∧ u.tp_levels = t.tp_levels
        ∧ u.sl_moved_to_be = reloc_flag t i := by
  unfold reloc_step at hu
  split at hu
  · exact Or.inl hu
  · split at hu
    · rcases mem_update_trade_fields hu with ⟨h, _⟩ | ⟨v, hv, hid, h1, h2, h3,
        h4, h5, h6, _, h8, h9, h10⟩
      · exact Or.inl h
      · exact Or.inr ⟨v, hv, hid, h1, h2, h3, h4, h5, h6, h8, h9, h10⟩
    · exact Or.inl hu

theorem tp_branch_members {st : BotState} {t : PaperTrade} {lp : ℚ} {i : ℕ}
    {u : PaperTrade}
    (hu : u ∈ (reloc_step (process_tp_closure st t lp i).1
          (process_tp_closure st t lp i).2 i).1.open_trades) :
    (u ∈ st.open_trades ∧ ¬ u.trade_id = t.trade_id)
    ∨ (∃ v ∈ st.open_trades, v.trade_id = t.trade_id
        ∧ u.trade_id = v.trade_id ∧ u.pair = v.pair
        ∧ u.entry_price = v.entry_price ∧ u.initial_size = v.initial_size
        ∧ u.leverage = v.leverage ∧ u.is_long = v.is_long
        ∧ u.remaining_size = t.remaining_size - t.initial_size / 10
        ∧ u.tp_levels = mark_hit t.tp_levels i
        ∧ ¬ (i = 9 ∨ t.remaining_size - t.initial_size / 10 < tp_eps)) := by
  rw [process_tp_closure_snd] at hu
  rcases reloc_step_mem hu with h | ⟨v, hv, hid, h1, h2, h3, h4, h5, h6, h7,
    h8, _⟩
  · by_cases hfull : i = 9 ∨ t.remaining_size - t.initial_size / 10 < tp_eps
    · rw [process_tp_closure_fst_full hfull] at h
      have h2 := mem_close_trade_ne h
      exact Or.inl h2
    · rw [process_tp_closure_fst_update hfull] at h
      rcases mem_update_trade_fields h with ⟨h, hne⟩ | ⟨v, hv, hid, h1, h2, h3,
        h4, h5, h6, _, h8, h9, _⟩
      · exact Or.inl ⟨h, hne⟩
      · exact Or.inr ⟨v, hv, hid, h1, h2, h3, h4, h5, h6, h8, h9, hfull⟩
  · by_cases hfull : i = 9 ∨ t.remaining_size - t.initial_size / 10 < tp_eps
    · rw [process_tp_closure_fst_full hfull] at hv
      have h2 := mem_close_trade_ne hv
      exact absurd hid h2.2
    · rw [process_tp_closure_fst_update hfull] at hv
      rcases mem_update_trade_fields hv with ⟨hvmem, hvne⟩ | ⟨w, hw, hwid, g1,
        g2, g3, g4, g5, g6, _, g8, g9, _⟩
      · exact absurd hid hvne
      · refine Or.inr ⟨w, hw, hwid, ?_, ?_, ?_, ?_, ?_, ?_, ?_, ?_, hfull⟩
        · rw [h1, g1]
        · rw [h2, g2]
        · rw [h3, g3]
        · rw [h4, g4]
        · rw [h5, g5]
        · rw [h6, g6]
        · exact h7
        · exact h8

/-- C5: in a monitor cycle, a trade that is not stopped out has only its
lowest-index pending ladder level examined: if the price has not reached
that level nothing at all happens (even if it has gapped past later
levels), and if it has, exactly initial_size/10 is closed at that level's
price, the slice PnL is credited to the balance, and that level alone is
marked hit — every other level keeps its status, and other trades are
untouched. -/
theorem c5_single_pending_level (st : BotState) (t : PaperTrade) (p : ℚ)
    (i : ℕ) (lvl : TPLevel) (hsl : ¬ sl_crossed t p)
    (hfp : first_pending t.tp_levels = some (i, lvl)) :
    (¬ tp_reached t p lvl.price → monitor_trade_step st t p = (st, false))
    ∧ (tp_reached t p lvl.price →
        (monitor_trade_step st t p).1.balance
          = st.balance + slice_pnl t lvl.price (t.initial_size / 10)
        ∧ (∀ u ∈ (monitor_trade_step st t p).1.open_trades,
             u.trade_id = t.trade_id →
               u.remaining_size = t.remaining_size - t.initial_size / 10
               ∧ u.tp_levels[i]? = some ⟨lvl.price, TPStatus.hit⟩
               ∧ (∀ j, j ≠ i → u.tp_levels[j]? = t.tp_levels[j]?))
        ∧ (∀ u ∈ (monitor_trade_step st t p).1.open_trades,
             ¬ u.trade_id = t.trade_id → u ∈ st.open_trades)) := by
  constructor
  · intro hr
    exact monitor_step_tp_miss hsl hfp hr
  · intro hr
    rw [monitor_step_tp hsl hfp hr]
    obtain ⟨hget, hpend⟩ := first_pending_get hfp
    refine ⟨?_, ?_, ?_⟩
    · rw [balance_reloc_step, balance_process_tp_closure]
    · intro u hu hid
      rcases tp_branch_members hu with ⟨_, hne⟩ | ⟨v, hv, hvid, h1, _, _, _,
        _, _, h7, h8, _⟩
      · exact absurd hid hne
      · refine ⟨h7, ?_, ?_⟩
        · rw [h8]
          exact mark_hit_get_self hget
        · intro j hj
          rw [h8]
          exact mark_hit_get_ne hj
    · intro u hu hid
      rcases tp_branch_members hu with ⟨hmem, _⟩ | ⟨v, hv, hvid, h1, _, _, _,
        _, _, _, _, _⟩
      · exact hmem
      · exact absurd (h1.trans hvid) hid

def c5w_trade : PaperTrade :=
  ⟨"t5", "ABCUSDT", 100, 90, 5, 5, 20, true,
   [⟨110, .pending⟩, ⟨120, .pending⟩, ⟨130, .pending⟩, ⟨140, .pending⟩,
    ⟨150, .pending⟩, ⟨160, .pending⟩, ⟨170, .pending⟩, ⟨180, .pending⟩,
    ⟨190, .pending⟩, ⟨200, .pending⟩], false⟩

def c5w_state : BotState := ⟨1000, [c5w_trade], []⟩

theorem c5_single_pending_level_witness :
    (monitor_trade_step c5w_state c5w_trade 110).1.balance
      = c5w_state.balance
        + slice_pnl c5w_trade 110 (c5w_trade.initial_size / 10) :=
  ((c5_single_pending_level c5w_state c5w_trade 110 0 ⟨110, .pending⟩
      (by decide) (by decide)).2 (by decide)).1

theorem reloc_step_eq_none {st : BotState} {t : PaperTrade} {i : ℕ}
    (hc : reloc_candidate t i = none) : reloc_step st t i = (st, false) := by
  unfold reloc_step
  rw [hc]

theorem reloc_step_eq_some {st : BotState} {t : PaperTrade} {i : ℕ} {q : ℚ}
    (hc : reloc_candidate t i = some q) :
    reloc_step st t i
      = if q ≠ 0 ∧ q ≠ t.sl_price
        then (update_trade st
                { t with sl_price := q, sl_moved_to_be := reloc_flag t i },
              true)
        else (st, false) := by
  unfold reloc_step
  rw [hc]

theorem c6_part1 (st : BotState) (t : PaperTrade) (lp : ℚ) (i : ℕ) :
    reloc_candidate (process_tp_closure st t lp i).2 i
      = (if i = 1 ∧ t.sl_moved_to_be = false then some t.entry_price
         else if 1 < i then (t.tp_levels[i - 2]?).map (fun l => l.price)
         else none) := by
  rw [process_tp_closure_snd]
  unfold reloc_candidate
  by_cases h1 : i = 1 ∧ t.sl_moved_to_be = false
  · rw [if_pos h1, if_pos h1]
  · rw [if_neg h1, if_neg h1]
    by_cases h2 : 1 < i
    · rw [if_pos h2, if_pos h2]
      have : i - 2 ≠ i := by omega
      rw [mark_hit_get_ne this]
    · rw [if_neg h2, if_neg h2]

theorem c6_part2 (st : BotState) (t : PaperTrade) (p : ℚ)
    (i : ℕ) (lvl : TPLevel) (hsl : ¬ sl_crossed t p)
    (hfp : first_pending t.tp_levels = some (i, lvl))
    (hr : tp_reached t p lvl.price) :
    ((monitor_trade_step st t p).2 = true ↔
      ∃ q, reloc_candidate (process_tp_closure st t lvl.price i).2 i = some q
        ∧ q ≠ 0 ∧ q ≠ t.sl_price) := by
  rw [monitor_step_tp hsl hfp hr]
  have hslp : (process_tp_closure st t lvl.price i).2.sl_price
      = t.sl_price := by
    rw [process_tp_closure_snd]
  cases hc : reloc_candidate (process_tp_closure st t lvl.price i).2 i with
  | none =>
    rw [reloc_step_eq_none hc]
    simp
  | some q =>
    rw [reloc_step_eq_some hc, hslp]
    by_cases hq : q ≠ 0 ∧ q ≠ t.sl_price
    · rw [if_pos hq]
      exact iff_of_true rfl ⟨q, rfl, hq.1, hq.2⟩
    · rw [if_neg hq]
      refine iff_of_false (by simp) ?_
      rintro ⟨q2, hq2, hz, hs⟩
      injection hq2 with hq2
      subst hq2
      exact hq ⟨hz, hs⟩

theorem c6_part3 (st : BotState) (t : PaperTrade) (p : ℚ)
    (i : ℕ) (lvl : TPLevel) (hsl : ¬ sl_crossed t p)
    (hfp : first_pending t.tp_levels = some (i, lvl))
    (hr : tp_reached t p lvl.price) :
    ((monitor_trade_step st t p).2 = false →
      (monitor_trade_step st t p).1
        = (process_tp_closure st t lvl.price i).1) := by
  rw [monitor_step_tp hsl hfp hr]
  cases hc : reloc_candidate (process_tp_closure st t lvl.price i).2 i with
  | none =>
    rw [reloc_step_eq_none hc]
    intro
    rfl
  | some q =>
    rw [reloc_step_eq_some hc]
    by_cases hq : q ≠ 0 ∧ q ≠ (process_tp_closure st t lvl.price i).2.sl_price
    · rw [if_pos hq]
      intro h
      exact absurd h (by simp)
    · rw [if_neg hq]
      intro
      rfl

theorem c6_part4 (st : BotState) (t : PaperTrade) (p : ℚ)
    (i : ℕ) (lvl : TPLevel) (hsl : ¬ sl_crossed t p)
    (hfp : first_pending t.tp_levels = some (i, lvl))
    (hr : tp_reached t p lvl.price) :
    ((monitor_trade_step st t p).2 = true →
      ∀ u ∈ (monitor_trade_step st t p).1.open_trades,
        u.trade_id = t.trade_id →
          reloc_candidate (process_tp_closure st t lvl.price i).2 i
            = some u.sl_price
          ∧ u.sl_moved_to_be
              = (if i = 1 then true else t.sl_moved_to_be)) := by
  rw [monitor_step_tp hsl hfp hr]
  cases hc : reloc_candidate (process_tp_closure st t lvl.price i).2 i with
  | none =>
    rw [reloc_step_eq_none hc]
    intro h
    exact absurd h (by simp)
  | some q =>
    rw [reloc_step_eq_some hc]
    by_cases hq : q ≠ 0 ∧ q ≠ (process_tp_closure st t lvl.price i).2.sl_price
    · rw [if_pos hq]
      intro _ u hu hid
      have hflag : reloc_flag (process_tp_closure st t lvl.price i).2 i
          = (if i = 1 then true else t.sl_moved_to_be) := by
        rw [process_tp_closure_snd]
        unfold reloc_flag
        by_cases hi : i = 1
        · subst hi
          by_cases hf : t.sl_moved_to_be = false
          · simp [hf]
          · -- flag already set at level 1: the candidate would be none
            exfalso
            rw [process_tp_closure_snd] at hc
            unfold reloc_candidate at hc
            rw [if_neg (by simp [hf]), if_neg (by omega)] at hc
            exact Option.noConfusion hc
        · simp [hi]
      have hid2 : (process_tp_closure st t lvl.price i).2.trade_id
          = t.trade_id := by
        rw [process_tp_closure_snd]
      rcases mem_update_trade_fields hu with ⟨_, hne⟩ | ⟨v, hv, hvid, h1, _,
        _, _, _, _, h7, _, _, h10⟩
      · exact absurd (hid.trans hid2.symm) hne
      · constructor
        · rw [h7]
        · rw [h10]
          exact hflag
    · rw [if_neg hq]
      intro h
      exact absurd h (by simp)

/-- C6 (amended): whenever ladder level `i` transitions to hit in a monitor
cycle, the candidate stop is `entry_price` (with the break-even flag to be
set) for `i = 1` with the flag unset, the price of level `i - 2` for
`i > 1`, and nothing for `i = 0`; the relocation — and its notification —
is applied iff the candidate exists, differs from the current stop, and is
nonzero (Python truthiness of `if new_sl_price and ...`); when it is
applied the persisted stop equals the candidate and the persisted flag is
set exactly for `i = 1`; when it is not applied, nothing beyond the partial
closure changes (in particular the flag is not persisted either). -/
theorem c6_hybrid_stop_relocation (st : BotState) (t : PaperTrade) (p : ℚ)
    (i : ℕ) (lvl : TPLevel) (hsl : ¬ sl_crossed t p)
    (hfp : first_pending t.tp_levels = some (i, lvl))
    (hr : tp_reached t p lvl.price) :
    (i = 0 → monitor_trade_step st t p
        = ((process_tp_closure st t lvl.price i).1, false))
    ∧ reloc_candidate (process_tp_closure st t lvl.price i).2 i
        = (if i = 1 ∧ t.sl_moved_to_be = false then some t.entry_price
           else if 1 < i then (t.tp_levels[i - 2]?).map (fun l => l.price)
           else none)
    ∧ ((monitor_trade_step st t p).2 = true ↔
        ∃ q, reloc_candidate (process_tp_closure st t lvl.price i).2 i
            = some q ∧ q ≠ 0 ∧ q ≠ t.sl_price)
    ∧ ((monitor_trade_step st t p).2 = false →
        (monitor_trade_step st t p).1
          = (process_tp_closure st t lvl.price i).1)
    ∧ ((monitor_trade_step st t p).2 = true →
        ∀ u ∈ (monitor_trade_step st t p).1.open_trades,
          u.trade_id = t.trade_id →
            reloc_candidate (process_tp_closure st t lvl.price i).2 i
              = some u.sl_price
            ∧ u.sl_moved_to_be
                = (if i = 1 then true else t.sl_moved_to_be)) := by
  refine ⟨?_, c6_part1 st t lvl.price i, c6_part2 st t p i lvl hsl hfp hr,
    c6_part3 st t p i lvl hsl hfp hr, c6_part4 st t p i lvl hsl hfp hr⟩
  intro h0
  subst h0
  have hc : reloc_candidate (process_tp_closure st t lvl.price 0).2 0
      = none := by
    rw [c6_part1]
    norm_num
  rw [monitor_step_tp hsl hfp hr, reloc_step_eq_none hc]

def c6x_trade : PaperTrade :=
  ⟨"t6", "AAAUSDT", 100, 100, 1, 8/10, 20, false,
   [⟨0, .hit⟩, ⟨-100, .hit⟩, ⟨-200, .pending⟩, ⟨-300, .pending⟩,
    ⟨-400, .pending⟩, ⟨-500, .pending⟩, ⟨-600, .pending⟩, ⟨-700, .pending⟩,
    ⟨-800, .pending⟩, ⟨-900, .pending⟩], true⟩

def c6x_state : BotState := ⟨1000, [c6x_trade], []⟩

/-- C6 counterexample: a short trade whose level index 2 transitions to hit
while ladder level 0 has price 0.  The candidate stop (level 0's price, 0)
differs from the current stop (100), so by the claim the stop should be
relocated and a notification emitted — but the code's truthiness guard
drops the zero candidate: no notification is emitted and the persisted
stop is unchanged. -/
theorem c6_zero_candidate_counterexample :
    first_pending c6x_trade.tp_levels = some (2, ⟨-200, .pending⟩)
    ∧ (c6x_trade.tp_levels[0]?).map (fun l => l.price) = some 0
    ∧ (0:ℚ) ≠ c6x_trade.sl_price
    ∧ (monitor_trade_step c6x_state c6x_trade (-200)).2 = false
    ∧ (monitor_trade_step c6x_state c6x_trade (-200)).1.open_trades.map
        (fun u => u.sl_price) = [c6x_trade.sl_price] := by
  refine ⟨by decide, by decide, by decide, ?_, ?_⟩ <;>
  norm_num [monitor_trade_step, process_tp_closure, reloc_step,
    reloc_candidate, reloc_flag, slice_pnl, update_balance, update_trade,
    upd_apply, close_trade, close_trade_run, get_trade_by_id, mark_hit,
    first_pending, is_pending_lvl, tp_eps, sl_crossed, tp_reached,
    c6x_state, c6x_trade]

def c6w_trade : PaperTrade :=
  ⟨"t6w", "ABCUSDT", 100, 90, 5, 5, 20, true,
   [⟨110, .pending⟩, ⟨120, .pending⟩, ⟨130, .pending⟩, ⟨140, .pending⟩,
    ⟨150, .pending⟩, ⟨160, .pending⟩, ⟨170, .pending⟩, ⟨180, .pending⟩,
    ⟨190, .pending⟩, ⟨200, .pending⟩], false⟩

def c6w_state : BotState := ⟨1000, [c6w_trade], []⟩

theorem c6_hybrid_stop_relocation_witness :
    monitor_trade_step c6w_state c6w_trade 110
      = ((process_tp_closure c6w_state c6w_trade 110 0).1, false) :=
  (c6_hybrid_stop_relocation c6w_state c6w_trade 110 0 ⟨110, .pending⟩
      (by decide) (by decide) (by decide)).1 rfl

theorem execute_trade_fresh {tid pair : String} {entry sl : ℚ}
    {target : Option ℚ} {risk balance leverage : ℚ} {t : PaperTrade}
    (h : execute_trade tid pair entry sl target risk balance leverage
          = some t) :
    t.remaining_size = t.initial_size
    ∧ hit_count t.tp_levels = 0
    ∧ hit_front t.tp_levels = true
    ∧ (0 ≤ risk → 0 ≤ t.initial_size) := by
  cases target with
  | none =>
    simp only [execute_trade] at h
    split at h
    · exact Option.noConfusion h
    · exact Option.noConfusion h
  | some tp0 =>
    simp only [execute_trade] at h
    split at h
    · exact Option.noConfusion h
    · split at h
      · exact Option.noConfusion h
      · split at h
        · exact Option.noConfusion h
        · split at h
          next hdist => exact Option.noConfusion h
          next hdist =>
            injection h with h
            subst h
            refine ⟨rfl, ?_, ?_, ?_⟩
            · split
              · split
                · exact hit_count_mk
                · exact hit_count_mk
              · exact hit_count_mk
            · split
              · split
                · exact hit_front_mk
                · exact hit_front_mk
              · exact hit_front_mk
            · intro hrisk
              have habs : (0:ℚ) < |entry - sl| :=
                lt_of_le_of_ne (abs_nonneg _) (Ne.symm hdist)
              exact div_nonneg hrisk habs.le

/-- The per-trade data-model invariant of the spec. -/
abbrev trade_inv (t : PaperTrade) : Prop :=
  0 ≤ t.remaining_size ∧ t.remaining_size ≤ t.initial_size
    ∧ hit_front t.tp_levels = true

theorem monitor_step_preserves_inv (st : BotState) (t : PaperTrade) (p : ℚ)
    (hall : ∀ u ∈ st.open_trades, trade_inv u) (ht : trade_inv t)
    (hinit : ∀ u ∈ st.open_trades,
      u.trade_id = t.trade_id → u.initial_size = t.initial_size) :
    ∀ u ∈ (monitor_trade_step st t p).1.open_trades, trade_inv u := by
  intro u hu
  by_cases hsl : sl_crossed t p
  · have hstep : monitor_trade_step st t p
        = (process_trade_closure st t "SL_HIT" t.sl_price, false) := by
      unfold monitor_trade_step
      rw [if_pos hsl]
    rw [hstep] at hu
    exact hall u (mem_process_trade_closure hu)
  · cases hfp : first_pending t.tp_levels with
    | none =>
      have hstep : monitor_trade_step st t p = (st, false) := by
        unfold monitor_trade_step
        rw [if_neg hsl, hfp]
      rw [hstep] at hu
      exact hall u hu
    | some pr =>
      obtain ⟨i, lvl⟩ := pr
      by_cases hr : tp_reached t p lvl.price
      · rw [monitor_step_tp hsl hfp hr] at hu
        rcases tp_branch_members hu with ⟨hmem, _⟩ | ⟨v, hv, hvid, h1, h2,
          h3, h4, h5, h6, h7, h8, hfull⟩
        · exact hall u hmem
        · obtain ⟨ht0, ht1, ht2⟩ := ht
          have hiv : u.initial_size = t.initial_size := by
            rw [h4, hinit v hv hvid]
          push_neg at hfull
          have heps : tp_eps ≤ t.remaining_size - t.initial_size / 10 :=
            hfull.2
          have hepspos : (0:ℚ) < tp_eps := by norm_num [tp_eps]
          refine ⟨?_, ?_, ?_⟩
          · rw [h7]
            linarith
          · rw [h7, hiv]
            linarith
          · rw [h8]
            exact hit_front_mark ht2 hfp
      · rw [monitor_step_tp_miss hsl hfp hr] at hu
        exact hall u hu

/-- Exact-arithmetic size bookkeeping: ten times the remaining size equals
the initial size times the number of not-yet-hit levels (out of 10). -/
abbrev size_inv (t : PaperTrade) : Prop :=
  t.remaining_size * 10
    = t.initial_size * (10 - (hit_count t.tp_levels : ℚ))

theorem monitor_step_preserves_size_inv (st : BotState) (t : PaperTrade)
    (p : ℚ) (hall : ∀ u ∈ st.open_trades, size_inv u) (ht : size_inv t)
    (hinit : ∀ u ∈ st.open_trades,
      u.trade_id = t.trade_id → u.initial_size = t.initial_size) :
    ∀ u ∈ (monitor_trade_step st t p).1.open_trades, size_inv u := by
  intro u hu
  by_cases hsl : sl_crossed t p
  · have hstep : monitor_trade_step st t p
        = (process_trade_closure st t "SL_HIT" t.sl_price, false) := by
      unfold monitor_trade_step
      rw [if_pos hsl]
    rw [hstep] at hu
    exact hall u (mem_process_trade_closure hu)
  · cases hfp : first_pending t.tp_levels with
    | none =>
      have hstep : monitor_trade_step st t p = (st, false) := by
        unfold monitor_trade_step
        rw [if_neg hsl, hfp]
      rw [hstep] at hu
      exact hall u hu
    | some pr =>
      obtain ⟨i, lvl⟩ := pr
      by_cases hr : tp_reached t p lvl.price
      · rw [monitor_step_tp hsl hfp hr] at hu
        rcases tp_branch_members hu with ⟨hmem, _⟩ | ⟨v, hv, hvid, h1, h2,
          h3, h4, h5, h6, h7, h8, hfull⟩
        · exact hall u hmem
        · obtain ⟨hget, hpend⟩ := first_pending_get hfp
          have hiv : u.initial_size = t.initial_size := by
            rw [h4, hinit v hv hvid]
          have hcount : hit_count (mark_hit t.tp_levels i)
              = hit_count t.tp_levels + 1 := hit_count_mark hget hpend
          show u.remaining_size * 10
            = u.initial_size * (10 - (hit_count u.tp_levels : ℚ))
          rw [h7, h8, hiv, hcount]
          push_cast
          linarith
      · rw [monitor_step_tp_miss hsl hfp hr] at hu
        exact hall u hu

/-- C8: every trade created by `execute_trade` satisfies the data-model
invariant `0 ≤ remaining_size ≤ initial_size` with a hit-block-then-pending
ladder, and one monitor evaluation step preserves that invariant for every
trade left in the open set (the stored row of the evaluated trade agreeing
with it on the immutable initial_size). -/
theorem c8_trade_invariants :
    (∀ (tid pair : String) (entry sl : ℚ) (target : Option ℚ)
        (risk balance leverage : ℚ) (t : PaperTrade), 0 ≤ risk →
        execute_trade tid pair entry sl target risk balance leverage
          = some t →
        trade_inv t)
    ∧ (∀ (st : BotState) (t : PaperTrade) (p : ℚ),
        (∀ u ∈ st.open_trades, trade_inv u) → trade_inv t →
        (∀ u ∈ st.open_trades, u.trade_id = t.trade_id →
          u.initial_size = t.initial_size) →
        ∀ u ∈ (monitor_trade_step st t p).1.open_trades, trade_inv u) := by
  constructor
  · intro tid pair entry sl target risk balance leverage t hrisk h
    obtain ⟨hrem, _, hfront, hinit⟩ := execute_trade_fresh h
    refine ⟨?_, ?_, hfront⟩
    · rw [hrem]
      exact hinit hrisk
    · rw [hrem]
  · exact monitor_step_preserves_inv

def c8w_trade : PaperTrade :=
  ⟨"t8w", "ABCUSDT", 100, 90, 5, 5, 20, true,
   [⟨110, .pending⟩, ⟨120, .pending⟩, ⟨130, .pending⟩, ⟨140, .pending⟩,
    ⟨150, .pending⟩, ⟨160, .pending⟩, ⟨170, .pending⟩, ⟨180, .pending⟩,
    ⟨190, .pending⟩, ⟨200, .pending⟩], false⟩

def c8w_state : BotState := ⟨1000, [c8w_trade], []⟩

def c8w_updated : PaperTrade :=
  ⟨"t8w", "ABCUSDT", 100, 90, 5, 9/2, 20, true,
   [⟨110, .hit⟩, ⟨120, .pending⟩, ⟨130, .pending⟩, ⟨140, .pending⟩,
    ⟨150, .pending⟩, ⟨160, .pending⟩, ⟨170, .pending⟩, ⟨180, .pending⟩,
    ⟨190, .pending⟩, ⟨200, .pending⟩], false⟩

theorem c8_trade_invariants_witness :
    trade_inv c8w_updated :=
  c8_trade_invariants.2 c8w_state c8w_trade 110 (by decide) (by decide)
    (by decide) c8w_updated
    (by norm_num [monitor_trade_step, process_tp_closure, reloc_step,
      reloc_candidate, reloc_flag, slice_pnl, update_balance, update_trade,
      upd_apply, close_trade, close_trade_run, get_trade_by_id, mark_hit,
      first_pending, is_pending_lvl, tp_eps, sl_crossed, tp_reached,
      c8w_state, c8w_trade, c8w_updated])

/-- C10: with exact rational arithmetic, `remaining_size * 10 =
initial_size * (10 - h)` where `h` counts the hit ladder levels: a freshly
opened trade has `h = 0` and `remaining_size = initial_size`; a partial TP
execution on a pending level increments `h` by one and subtracts exactly
`initial_size / 10`; and a monitor evaluation step preserves the relation
for every trade left in the open set. -/
theorem c10_size_accounting :
    (∀ (tid pair : String) (entry sl : ℚ) (target : Option ℚ)
        (risk balance leverage : ℚ) (t : PaperTrade),
        execute_trade tid pair entry sl target risk balance leverage
          = some t →
        size_inv t ∧ hit_count t.tp_levels = 0
          ∧ t.remaining_size = t.initial_size)
    ∧ (∀ (st : BotState) (t : PaperTrade) (lp : ℚ) (i : ℕ) (lvl : TPLevel),
        t.tp_levels[i]? = some lvl → is_pending_lvl lvl = true →
        hit_count (process_tp_closure st t lp i).2.tp_levels
            = hit_count t.tp_levels + 1
          ∧ (process_tp_closure st t lp i).2.remaining_size
            = t.remaining_size - t.initial_size / 10)
    ∧ (∀ (st : BotState) (t : PaperTrade) (p : ℚ),
        (∀ u ∈ st.open_trades, size_inv u) → size_inv t →
        (∀ u ∈ st.open_trades, u.trade_id = t.trade_id →
          u.initial_size = t.initial_size) →
        ∀ u ∈ (monitor_trade_step st t p).1.open_trades, size_inv u) := by
  refine ⟨?_, ?_, monitor_step_preserves_size_inv⟩
  · intro tid pair entry sl target risk balance leverage t h
    obtain ⟨hrem, hc0, _, _⟩ := execute_trade_fresh h
    refine ⟨?_, hc0, hrem⟩
    show t.remaining_size * 10
      = t.initial_size * (10 - (hit_count t.tp_levels : ℚ))
    rw [hrem, hc0]
    push_cast
    ring
  · intro st t lp i lvl hget hpend
    simp only [process_tp_closure_snd]
    exact ⟨hit_count_mark hget hpend, trivial⟩

def c10w_trade : PaperTrade :=
  ⟨"tAw", "ABCUSDT", 100, 90, 5, 5, 20, true,
   [⟨110, .pending⟩, ⟨120, .pending⟩, ⟨130, .pending⟩, ⟨140, .pending⟩,
    ⟨150, .pending⟩, ⟨160, .pending⟩, ⟨170, .pending⟩, ⟨180, .pending⟩,
    ⟨190, .pending⟩, ⟨200, .pending⟩], false⟩

def c10w_state : BotState := ⟨1000, [c10w_trade], []⟩

def c10w_updated : PaperTrade :=
  ⟨"tAw", "ABCUSDT", 100, 90, 5, 9/2, 20, true,
   [⟨110, .hit⟩, ⟨120, .pending⟩, ⟨130, .pending⟩, ⟨140, .pending⟩,
    ⟨150, .pending⟩, ⟨160, .pending⟩, ⟨170, .pending⟩, ⟨180, .pending⟩,
    ⟨190, .pending⟩, ⟨200, .pending⟩], false⟩

theorem c10_size_accounting_witness :
    size_inv c10w_updated
    ∧ hit_count (process_tp_closure c10w_state c10w_trade 110 0).2.tp_levels
        = hit_count c10w_trade.tp_levels + 1 :=
  ⟨c10_size_accounting.2.2 c10w_state c10w_trade 110
      (by
        intro u hu
        simp only [c10w_state, List.mem_singleton] at hu
        subst hu
        show c10w_trade.remaining_size * 10
          = c10w_trade.initial_size * (10 - (hit_count c10w_trade.tp_levels : ℚ))
        norm_num [c10w_trade, hit_count, List.countP_cons, List.countP_nil,
          is_hit_lvl])
      (by
        show c10w_trade.remaining_size * 10
          = c10w_trade.initial_size * (10 - (hit_count c10w_trade.tp_levels : ℚ))
        norm_num [c10w_trade, hit_count, List.countP_cons, List.countP_nil,
          is_hit_lvl])
      (by decide) c10w_updated
      (by norm_num [monitor_trade_step, process_tp_closure, reloc_step,
        reloc_candidate, reloc_flag, slice_pnl, update_balance, update_trade,
        upd_apply, close_trade, close_trade_run, get_trade_by_id, mark_hit,
        first_pending, is_pending_lvl, tp_eps, sl_crossed, tp_reached,
        c10w_state, c10w_trade, c10w_updated]),
   (c10_size_accounting.2.1 c10w_state c10w_trade 110 0 ⟨110, .pending⟩
      (by decide) (by decide)).1⟩
